import Mathlib

/-!
# Verification of the raycast puzzle core (`raycast_puzzle.py`)

Shallow embedding of the ray-casting kernel of the repository:

* `Vector2` models the source's `Vector2` class over `ℝ` (floats idealized
  as real numbers), used for the `normalize` degenerate-input policy.
* `Vec` models 2D vectors over `ℚ` (floats idealized as exact rationals)
  for the exact grid-stepping computations of the caster.
* `LevelMap` models the level grid plus the mirror registry;
  `LevelMap.get_tile` is the bounds-checked tile lookup with the sentinel
  wall policy.
* `ddaLoop` / `castSingle` embed `Ray._cast_single`: the inner DDA
  stepping `while` loop is written with an explicit fuel parameter, and a
  theorem shows the chosen fuel always suffices (this is the termination
  argument for the source loop).
* `castLoop` / `Ray.cast` embed the bounded reflection controller.  The
  embedding additionally returns the list of single-segment results cast
  during the call (instrumentation used only by specifications; the first
  component of the pair is the value the source returns).  The source
  returns the local `wall_type` after the loop; when the loop body never
  ran that local is unbound and Python raises `UnboundLocalError`, which
  the embedding models as the `CastOutcome.unboundLocal` outcome.
-/

/- The Batteries rational-number operations are `@[irreducible]`, which
blocks `decide`-style evaluation of the embedding at concrete inputs;
restore default reducibility for them within this file. -/
attribute [local semireducible] Rat.add Rat.sub Rat.mul Rat.inv Rat.ofScientific

namespace RaycastPuzzle

/-! ## Vector math (`Vector2`), over the reals for `normalize` -/

/-- The source's `Vector2` value (floats idealized as reals). -/
structure Vector2 where
  x : ℝ
  y : ℝ

/-- `Vector2.length`: `math.sqrt(self.x ** 2 + self.y ** 2)`. -/
noncomputable def Vector2.length (v : Vector2) : ℝ :=
  Real.sqrt (v.x ^ 2 + v.y ^ 2)

/-- `Vector2.normalize`: divide by the length when `length > 0`, else
return the zero vector. -/
noncomputable def Vector2.normalize (v : Vector2) : Vector2 :=
  if v.length > 0 then ⟨v.x / v.length, v.y / v.length⟩ else ⟨0, 0⟩

/-! ## Rational vectors used by the caster -/

/-- 2D vector over `ℚ`, the exact idealization used for the caster. -/
structure Vec where
  x : ℚ
  y : ℚ
deriving DecidableEq, Repr

/-! ## Level map -/

/-- One entry of the mirror registry (`add_mirror` appends a dict with
keys `x`, `y`, `orientation`); `horizontal = true` models
`orientation == 'horizontal'`, any other orientation behaves as vertical
in `Ray.cast`. -/
structure Mirror where
  x : ℤ
  y : ℤ
  horizontal : Bool
deriving DecidableEq, Repr

/-- The level map: tile-code matrix plus mirror registry. -/
structure LevelMap where
  grid : List (List ℤ)
  mirrors : List Mirror
deriving DecidableEq, Repr

/-- `self.width = len(grid[0])`. -/
def LevelMap.width (lm : LevelMap) : ℕ := (lm.grid.headD []).length

/-- `self.height = len(grid)`. -/
def LevelMap.height (lm : LevelMap) : ℕ := lm.grid.length

/-- Raw double indexing `grid[y][x]` (defined on in-range indices; the
source only indexes after a bounds check). -/
def tileOf (lm : LevelMap) (x y : ℤ) : ℤ :=
  (lm.grid.getD y.toNat []).getD x.toNat 0

/-- `LevelMap.get_tile`: the cell's code when
`0 <= x < self.width and 0 <= y < self.height`, else the sentinel wall
code `1`. -/
def LevelMap.get_tile (lm : LevelMap) (x y : ℤ) : ℤ :=
  if 0 ≤ x ∧ x < (lm.width : ℤ) ∧ 0 ≤ y ∧ y < (lm.height : ℤ) then
    tileOf lm x y
  else 1

/-- First mirror registered at exactly `(cx, cy)` — the source's linear
scan `for mirror in level_map.mirrors: if mirror['x'] == check_x and
mirror['y'] == check_y: ...` returns the first match. -/
def findMirror (ms : List Mirror) (cx cy : ℤ) : Option Mirror :=
  ms.find? (fun m => m.x == cx && m.y == cy)

/-! ## Direction nudging -/

/-- The epsilon nudge at the top of `_cast_single`:
`if abs(direction.x) < 0.0001: direction.x = 0.0001` — note the assigned
value is the positive constant `0.0001` regardless of the component's
sign. -/
def nudge (q : ℚ) : ℚ :=
  if |q| < 1 / 10000 then 1 / 10000 else q

/-- Python `int()` conversion: truncation toward zero. -/
def trunc (q : ℚ) : ℤ :=
  if q < 0 then ⌈q⌉ else ⌊q⌋

/-! ## The single-segment caster (`Ray._cast_single`)

The DDA `while distance < max_distance` loop carries three mutable
locals: `h_x`, `v_y` and `distance`.  Everything else is fixed for the
duration of the loop and is collected in `DDAEnv`:
`ox, oy` are `origin.x, origin.y`; `rc, rs` are `ray_cos, ray_sin`
(the nudged direction components); `h_dx, v_dy` the per-axis integer
steps; `maxD` the remaining distance budget; `lm` the level map. -/

/-- Fixed data of one `_cast_single` invocation. -/
structure DDAEnv where
  ox : ℚ
  oy : ℚ
  rc : ℚ
  rs : ℚ
  h_dx : ℤ
  v_dy : ℤ
  maxD : ℚ
  lm : LevelMap

/-- Result 4-tuple of `_cast_single`:
`(distance, wall_type, hit_mirror, mirror_data)`. -/
structure SingleResult where
  distance : ℚ
  wall_type : ℤ
  hit_mirror : Bool
  mirror_data : Option Mirror
deriving DecidableEq, Repr

/-- `h_dist = (h_x - origin.x) / ray_cos`. -/
def hDist (e : DDAEnv) (h_x : ℤ) : ℚ := ((h_x : ℚ) - e.ox) / e.rc

/-- `h_y = origin.y + h_dist * ray_sin`. -/
def hY (e : DDAEnv) (h_x : ℤ) : ℚ := e.oy + hDist e h_x * e.rs

/-- `check_x = int(h_x - (0.5 if ray_cos < 0 else -0.5))`. -/
def hCheckX (e : DDAEnv) (h_x : ℤ) : ℤ :=
  trunc ((h_x : ℚ) - (if e.rc < 0 then (1 : ℚ) / 2 else -((1 : ℚ) / 2)))

/-- `check_y = int(h_y)` in the horizontal-intersection branch. -/
def hCheckY (e : DDAEnv) (h_x : ℤ) : ℤ := trunc (hY e h_x)

/-- `v_dist = (v_y - origin.y) / ray_sin`. -/
def vDist (e : DDAEnv) (v_y : ℤ) : ℚ := ((v_y : ℚ) - e.oy) / e.rs

/-- `v_x = origin.x + v_dist * ray_cos`. -/
def vX (e : DDAEnv) (v_y : ℤ) : ℚ := e.ox + vDist e v_y * e.rc

/-- `check_x = int(v_x)` in the vertical-intersection branch. -/
def vCheckX (e : DDAEnv) (v_y : ℤ) : ℤ := trunc (vX e v_y)

/-- `check_y = int(v_y - (0.5 if ray_sin < 0 else -0.5))`. -/
def vCheckY (e : DDAEnv) (v_y : ℤ) : ℤ :=
  trunc ((v_y : ℚ) - (if e.rs < 0 then (1 : ℚ) / 2 else -((1 : ℚ) / 2)))

/-- Body of the `abs(h_dist) < abs(v_dist)` branch: bounds check with
sentinel `1`, tile lookup, mirror scan on a nonzero tile, otherwise
`h_x += h_dx` and continue (`cont` is the rest of the loop).  The mirror
scan returning the first match with flag `True`, else `(False, None)`, is
expressed through `findMirror`. -/
def hBranch (e : DDAEnv) (h_x v_y : ℤ)
    (cont : ℤ → ℤ → ℚ → Option SingleResult) : Option SingleResult :=
  if hCheckX e h_x < 0 ∨ (e.lm.width : ℤ) ≤ hCheckX e h_x ∨
     hCheckY e h_x < 0 ∨ (e.lm.height : ℤ) ≤ hCheckY e h_x then
    some ⟨|hDist e h_x|, 1, false, none⟩
  else if tileOf e.lm (hCheckX e h_x) (hCheckY e h_x) ≠ 0 then
    some ⟨|hDist e h_x|, tileOf e.lm (hCheckX e h_x) (hCheckY e h_x),
          (findMirror e.lm.mirrors (hCheckX e h_x) (hCheckY e h_x)).isSome,
          findMirror e.lm.mirrors (hCheckX e h_x) (hCheckY e h_x)⟩
  else cont (h_x + e.h_dx) v_y |hDist e h_x|

/-- Body of the `else` (vertical-intersection) branch, symmetric to
`hBranch`; advances `v_y += v_dy` when the entered cell is empty. -/
def vBranch (e : DDAEnv) (h_x v_y : ℤ)
    (cont : ℤ → ℤ → ℚ → Option SingleResult) : Option SingleResult :=
  if vCheckX e v_y < 0 ∨ (e.lm.width : ℤ) ≤ vCheckX e v_y ∨
     vCheckY e v_y < 0 ∨ (e.lm.height : ℤ) ≤ vCheckY e v_y then
    some ⟨|vDist e v_y|, 1, false, none⟩
  else if tileOf e.lm (vCheckX e v_y) (vCheckY e v_y) ≠ 0 then
    some ⟨|vDist e v_y|, tileOf e.lm (vCheckX e v_y) (vCheckY e v_y),
          (findMirror e.lm.mirrors (vCheckX e v_y) (vCheckY e v_y)).isSome,
          findMirror e.lm.mirrors (vCheckX e v_y) (vCheckY e v_y)⟩
  else cont h_x (v_y + e.v_dy) |vDist e v_y|

/-- The DDA `while distance < max_distance` loop, with an explicit fuel
parameter (`none` = fuel ran out; `ddaLoop_isSome` below shows the fuel
computed by `ddaFuel` always suffices, which is the termination proof for
the source loop).  Exiting the `while` returns
`(max_distance, 0, False, None)`. -/
def ddaLoop (e : DDAEnv) : ℕ → ℤ → ℤ → ℚ → Option SingleResult
  | 0, _, _, _ => none
  | fuel + 1, h_x, v_y, distance =>
    if distance < e.maxD then
      if |hDist e h_x| < |vDist e v_y| then hBranch e h_x v_y (ddaLoop e fuel)
      else vBranch e h_x v_y (ddaLoop e fuel)
    else some ⟨e.maxD, 0, false, none⟩

/-- Count of grid-line crossings on one axis still below the distance
budget; the termination measure decreases through this quantity. -/
def sHN (e : DDAEnv) (h_x : ℤ) : ℕ :=
  (⌈(e.maxD - hDist e h_x) * |e.rc|⌉).toNat

/-- Vertical-axis analogue of `sHN`. -/
def sVN (e : DDAEnv) (v_y : ℤ) : ℕ :=
  (⌈(e.maxD - vDist e v_y) * |e.rs|⌉).toNat

/-- Termination measure of a DDA loop state. -/
def ddaMeasure (e : DDAEnv) (h_x v_y : ℤ) (d : ℚ) : ℕ :=
  if d < e.maxD then sHN e h_x + sVN e v_y + 2 else 1

/-- Sufficient fuel for the DDA loop started at `(h_x, v_y, 0)`. -/
def ddaFuel (e : DDAEnv) (h_x v_y : ℤ) : ℕ := ddaMeasure e h_x v_y 0 + 1

/-- The fixed loop data assembled by `_cast_single` after the epsilon
nudge: `ray_cos`/`ray_sin` are the nudged components, and the step signs
are `1 if ray_cos > 0 else -1` (resp. `ray_sin`). -/
def castEnv (origin dir : Vec) (lm : LevelMap) (maxD : ℚ) : DDAEnv :=
  ⟨origin.x, origin.y, nudge dir.x, nudge dir.y,
   if 0 < nudge dir.x then 1 else -1,
   if 0 < nudge dir.y then 1 else -1, maxD, lm⟩

/-- Initial `h_x`: `floor(origin.x) + 1` when `ray_cos > 0`, else
`ceil(origin.x) - 1`. -/
def hX0 (origin dir : Vec) : ℤ :=
  if 0 < nudge dir.x then ⌊origin.x⌋ + 1 else ⌈origin.x⌉ - 1

/-- Initial `v_y`: `floor(origin.y) + 1` when `ray_sin > 0`, else
`ceil(origin.y) - 1`. -/
def vY0 (origin dir : Vec) : ℤ :=
  if 0 < nudge dir.y then ⌊origin.y⌋ + 1 else ⌈origin.y⌉ - 1

/-- `Ray._cast_single`.  Returns the segment result together with the
nudged direction vector: the source mutates the caller's direction object
in place when nudging, so the caller (`Ray.cast`) continues with the
nudged components; the embedding passes that mutation back explicitly. -/
def castSingle (origin dir : Vec) (lm : LevelMap) (maxD : ℚ) :
    Option (SingleResult × Vec) :=
  (ddaLoop (castEnv origin dir lm maxD)
      (ddaFuel (castEnv origin dir lm maxD) (hX0 origin dir) (vY0 origin dir))
      (hX0 origin dir) (vY0 origin dir) 0).map
    (fun r => (r, ⟨nudge dir.x, nudge dir.y⟩))

/-! ## The reflection controller (`Ray.cast`) -/

/-- `self.max_bounces = 3`. -/
def maxBounces : ℕ := 3

/-- What `Ray.cast` produces: the `(total_distance, wall_type, False)`
triple, or the `UnboundLocalError` Python raises at the final
`return total_distance, wall_type, False` when the loop body never ran
(then the local `wall_type` was never assigned). -/
inductive CastOutcome where
  | ok (distance : ℚ) (wall_type : ℤ) (hit_mirror : Bool)
  | unboundLocal
deriving DecidableEq, Repr

/-- The controller `while self.bounces < self.max_bounces and
total_distance < max_distance` loop.  State: position, direction, bounce
count, accumulated distance, and the last assigned value of the local
`wall_type` (`none` when not yet assigned).  The outer fuel is only a
recursion bound; `castLoop_isSome` shows `maxBounces - bounces + 1`
always suffices.  Alongside the outcome the embedding returns the list of
segment results cast (specification instrumentation). -/
def castLoop (lm : LevelMap) (maxD : ℚ) :
    ℕ → Vec → Vec → ℕ → ℚ → Option ℤ → Option (CastOutcome × List SingleResult)
  | 0, _, _, _, _, _ => none
  | fuel + 1, pos, dir, bounces, total, lastWall =>
    if bounces < maxBounces ∧ total < maxD then
      match castSingle pos dir lm (maxD - total) with
      | none => none
      | some (r, nd) =>
        match r.mirror_data with
        | some m =>
          if r.hit_mirror then
            (castLoop lm maxD fuel
                ⟨pos.x + nd.x * r.distance, pos.y + nd.y * r.distance⟩
                (if m.horizontal then ⟨nd.x, -nd.y⟩ else ⟨-nd.x, nd.y⟩)
                (bounces + 1) (total + r.distance) (some r.wall_type)).map
              (fun p => (p.1, r :: p.2))
          else some (.ok (total + r.distance) r.wall_type false, [r])
        | none => some (.ok (total + r.distance) r.wall_type false, [r])
    else
      match lastWall with
      | none => some (.unboundLocal, [])
      | some w => some (.ok total w false, [])

/-- The `Ray` state read by `cast`: `origin`, `direction` (normalized at
construction by `Ray.__init__`; `cast` reads whatever is stored) and the
`bounces` counter (`0` on a freshly constructed ray). -/
structure Ray where
  origin : Vec
  direction : Vec
  bounces : ℕ
deriving DecidableEq, Repr

/-- `Ray.cast(level_map, max_distance)`. -/
def Ray.cast (r : Ray) (lm : LevelMap) (maxD : ℚ) :
    Option (CastOutcome × List SingleResult) :=
  castLoop lm maxD (maxBounces - r.bounces + 1) r.origin r.direction r.bounces 0 none

/-! ## Concrete fixtures used by witnesses and counterexamples -/

/-- Corridor between two vertical mirrors with distinct tile codes `5`
and `7` (row `y = 1`), walls elsewhere. -/
def lmC2 : LevelMap :=
  ⟨[[1, 1, 1, 1, 1, 1], [5, 0, 0, 0, 7, 1], [1, 1, 1, 1, 1, 1]],
   [⟨0, 1, false⟩, ⟨4, 1, false⟩]⟩

/-- The three segments cast in the `lmC2` mirror corridor. -/
def segsC2 : List SingleResult :=
  [⟨5/2, 7, true, some ⟨4, 1, false⟩⟩,
   ⟨3, 5, true, some ⟨0, 1, false⟩⟩,
   ⟨3, 7, true, some ⟨4, 1, false⟩⟩]

/-- Box with an interior wall of code `2` at cell `(2, 1)`. -/
def lmC3 : LevelMap := ⟨[[1, 1, 1, 1], [1, 0, 2, 1], [1, 1, 1, 1]], []⟩

/-- Box with two empty interior cells in row `y = 1`. -/
def lmC3w : LevelMap := ⟨[[1, 1, 1, 1], [1, 0, 0, 1], [1, 1, 1, 1]], []⟩

/-- Minimal closed box. -/
def lmC4 : LevelMap := ⟨[[1, 1, 1], [1, 0, 1], [1, 1, 1]], []⟩

/-- Box with a horizontal mirror of code `3` at cell `(3, 1)`. -/
def lmC5 : LevelMap :=
  ⟨[[1, 1, 1, 1, 1], [1, 0, 0, 3, 1], [1, 1, 1, 1, 1]], [⟨3, 1, true⟩]⟩

/-- Trivial one-cell map. -/
def lmC9 : LevelMap := ⟨[[0]], []⟩

/-- A DDA environment whose initial crossings tie exactly. -/
def envC9 : DDAEnv := ⟨0, 0, 1, 1, 1, 1, 10, lmC9⟩

/-- One-cell wall map. -/
def lmC10 : LevelMap := ⟨[[1]], []⟩

/-- Small grid with distinct codes for the `get_tile` witness. -/
def lmC7 : LevelMap := ⟨[[4, 5], [6, 7]], []⟩

/-! ## Helper lemmas: the nudge never yields zero -/

/-- The nudged component is never zero (this is what rules out division
by zero in the DDA). -/
lemma nudge_ne_zero (q : ℚ) : nudge q ≠ 0 := by
  unfold nudge
  split_ifs with h
  · norm_num
  · intro h0
    exact h (by rw [h0]; norm_num)

/-! ## Helper lemmas: termination of the DDA loop

Advancing the tracked crossing on one axis moves that axis's parametric
distance up by exactly `1 / |component|`; the natural-number measure
`ddaMeasure` therefore strictly decreases on every continuing iteration. -/

/-- One `h_x += h_dx` advance increases `h_dist` by `1 / |ray_cos|`. -/
lemma hDist_step (e : DDAEnv) (h_x : ℤ) (hrc : e.rc ≠ 0)
    (hdx : e.h_dx = if 0 < e.rc then 1 else -1) :
    hDist e (h_x + e.h_dx) = hDist e h_x + 1 / |e.rc| := by
  rcases hrc.lt_or_lt with h | h
  · rw [hdx, if_neg (not_lt.mpr h.le), abs_of_neg h]
    unfold hDist
    have hne : e.rc ≠ 0 := ne_of_lt h
    push_cast
    field_simp
    ring
  · rw [hdx, if_pos h, abs_of_pos h]
    unfold hDist
    have hne : e.rc ≠ 0 := ne_of_gt h
    push_cast
    field_simp
    ring

/-- One `v_y += v_dy` advance increases `v_dist` by `1 / |ray_sin|`. -/
lemma vDist_step (e : DDAEnv) (v_y : ℤ) (hrs : e.rs ≠ 0)
    (hdy : e.v_dy = if 0 < e.rs then 1 else -1) :
    vDist e (v_y + e.v_dy) = vDist e v_y + 1 / |e.rs| := by
  rcases hrs.lt_or_lt with h | h
  · rw [hdy, if_neg (not_lt.mpr h.le), abs_of_neg h]
    unfold vDist
    have hne : e.rs ≠ 0 := ne_of_lt h
    push_cast
    field_simp
    ring
  · rw [hdy, if_pos h, abs_of_pos h]
    unfold vDist
    have hne : e.rs ≠ 0 := ne_of_gt h
    push_cast
    field_simp
    ring

/-- Crossing-count bookkeeping for an `h` advance below the budget. -/
lemma sHN_step (e : DDAEnv) (h_x : ℤ) (hrc : e.rc ≠ 0)
    (hdx : e.h_dx = if 0 < e.rc then 1 else -1)
    (_hnn : 0 ≤ hDist e h_x) (hlt : hDist e h_x < e.maxD) :
    sHN e (h_x + e.h_dx) + 1 = sHN e h_x ∧ 1 ≤ sHN e h_x := by
  have habs : (0 : ℚ) < |e.rc| := abs_pos.mpr hrc
  have hm : (e.maxD - hDist e (h_x + e.h_dx)) * |e.rc| =
      (e.maxD - hDist e h_x) * |e.rc| - 1 := by
    rw [hDist_step e h_x hrc hdx]
    have hne : |e.rc| ≠ 0 := ne_of_gt habs
    field_simp
    ring
  have hpos : 0 < (e.maxD - hDist e h_x) * |e.rc| :=
    mul_pos (by linarith) habs
  have hceil : 0 < ⌈(e.maxD - hDist e h_x) * |e.rc|⌉ := Int.ceil_pos.mpr hpos
  unfold sHN
  rw [hm, Int.ceil_sub_one]
  omega

/-- Crossing-count bookkeeping for a `v` advance below the budget. -/
lemma sVN_step (e : DDAEnv) (v_y : ℤ) (hrs : e.rs ≠ 0)
    (hdy : e.v_dy = if 0 < e.rs then 1 else -1)
    (_hnn : 0 ≤ vDist e v_y) (hlt : vDist e v_y < e.maxD) :
    sVN e (v_y + e.v_dy) + 1 = sVN e v_y ∧ 1 ≤ sVN e v_y := by
  have habs : (0 : ℚ) < |e.rs| := abs_pos.mpr hrs
  have hm : (e.maxD - vDist e (v_y + e.v_dy)) * |e.rs| =
      (e.maxD - vDist e v_y) * |e.rs| - 1 := by
    rw [vDist_step e v_y hrs hdy]
    have hne : |e.rs| ≠ 0 := ne_of_gt habs
    field_simp
    ring
  have hpos : 0 < (e.maxD - vDist e v_y) * |e.rs| :=
    mul_pos (by linarith) habs
  have hceil : 0 < ⌈(e.maxD - vDist e v_y) * |e.rs|⌉ := Int.ceil_pos.mpr hpos
  unfold sVN
  rw [hm, Int.ceil_sub_one]
  omega

/-- `hBranch` only fails to produce a value through its continuation. -/
lemma hBranch_isSome (e : DDAEnv) (h_x v_y : ℤ)
    (cont : ℤ → ℤ → ℚ → Option SingleResult)
    (h : (cont (h_x + e.h_dx) v_y |hDist e h_x|).isSome = true) :
    (hBranch e h_x v_y cont).isSome = true := by
  unfold hBranch
  split_ifs <;> simp [h]

/-- `vBranch` only fails to produce a value through its continuation. -/
lemma vBranch_isSome (e : DDAEnv) (h_x v_y : ℤ)
    (cont : ℤ → ℤ → ℚ → Option SingleResult)
    (h : (cont h_x (v_y + e.v_dy) |vDist e v_y|).isSome = true) :
    (vBranch e h_x v_y cont).isSome = true := by
  unfold vBranch
  split_ifs <;> simp [h]

/-- Termination of the DDA `while` loop: starting from any state with
nonnegative crossing distances, `ddaMeasure` many iterations suffice. -/
lemma ddaLoop_isSome (e : DDAEnv) (hrc : e.rc ≠ 0) (hrs : e.rs ≠ 0)
    (hdx : e.h_dx = if 0 < e.rc then 1 else -1)
    (hdy : e.v_dy = if 0 < e.rs then 1 else -1) :
    ∀ (fuel : ℕ) (h_x v_y : ℤ) (d : ℚ), 0 ≤ hDist e h_x → 0 ≤ vDist e v_y →
      ddaMeasure e h_x v_y d < fuel →
      (ddaLoop e fuel h_x v_y d).isSome = true := by
  intro fuel
  induction fuel with
  | zero => exact fun h_x v_y d _ _ hm => absurd hm (Nat.not_lt_zero _)
  | succ n ih =>
    intro h_x v_y d hh hv hm
    rw [ddaLoop]
    by_cases hd : d < e.maxD
    · rw [if_pos hd]
      have hmeas : sHN e h_x + sVN e v_y + 2 ≤ n := by
        unfold ddaMeasure at hm
        rw [if_pos hd] at hm
        omega
      by_cases hc : |hDist e h_x| < |vDist e v_y|
      · rw [if_pos hc]
        apply hBranch_isSome
        apply ih
        · rw [hDist_step e h_x hrc hdx]
          have h1 : (0 : ℚ) < 1 / |e.rc| := by
            have := abs_pos.mpr hrc
            positivity
          linarith
        · exact hv
        · rw [abs_of_nonneg hh]
          unfold ddaMeasure
          by_cases h2 : hDist e h_x < e.maxD
          · rw [if_pos h2]
            obtain ⟨he, h1⟩ := sHN_step e h_x hrc hdx hh h2
            omega
          · rw [if_neg h2]
            omega
      · rw [if_neg hc]
        apply vBranch_isSome
        apply ih
        · exact hh
        · rw [vDist_step e v_y hrs hdy]
          have h1 : (0 : ℚ) < 1 / |e.rs| := by
            have := abs_pos.mpr hrs
            positivity
          linarith
        · rw [abs_of_nonneg hv]
          unfold ddaMeasure
          by_cases h2 : vDist e v_y < e.maxD
          · rw [if_pos h2]
            obtain ⟨he, h1⟩ := sVN_step e v_y hrs hdy hv h2
            omega
          · rw [if_neg h2]
            omega
    · rw [if_neg hd]
      rfl

/-- The initial horizontal crossing distance is nonnegative. -/
lemma hDist0_nonneg (origin dir : Vec) (lm : LevelMap) (maxD : ℚ) :
    0 ≤ hDist (castEnv origin dir lm maxD) (hX0 origin dir) := by
  have hne := nudge_ne_zero dir.x
  show (0 : ℚ) ≤ ((hX0 origin dir : ℚ) - origin.x) / nudge dir.x
  by_cases hp : 0 < nudge dir.x
  · have hx : hX0 origin dir = ⌊origin.x⌋ + 1 := by rw [hX0, if_pos hp]
    apply div_nonneg _ hp.le
    rw [hx]
    push_cast
    have := Int.lt_floor_add_one origin.x
    linarith
  · have hneg : nudge dir.x < 0 := (hne.lt_or_lt).resolve_right hp
    have hx : hX0 origin dir = ⌈origin.x⌉ - 1 := by rw [hX0, if_neg hp]
    apply div_nonneg_of_nonpos _ hneg.le
    rw [hx]
    push_cast
    have := Int.ceil_lt_add_one origin.x
    linarith

/-- The initial vertical crossing distance is nonnegative. -/
lemma vDist0_nonneg (origin dir : Vec) (lm : LevelMap) (maxD : ℚ) :
    0 ≤ vDist (castEnv origin dir lm maxD) (vY0 origin dir) := by
  have hne := nudge_ne_zero dir.y
  show (0 : ℚ) ≤ ((vY0 origin dir : ℚ) - origin.y) / nudge dir.y
  by_cases hp : 0 < nudge dir.y
  · have hy : vY0 origin dir = ⌊origin.y⌋ + 1 := by rw [vY0, if_pos hp]
    apply div_nonneg _ hp.le
    rw [hy]
    push_cast
    have := Int.lt_floor_add_one origin.y
    linarith
  · have hneg : nudge dir.y < 0 := (hne.lt_or_lt).resolve_right hp
    have hy : vY0 origin dir = ⌈origin.y⌉ - 1 := by rw [vY0, if_neg hp]
    apply div_nonneg_of_nonpos _ hneg.le
    rw [hy]
    push_cast
    have := Int.ceil_lt_add_one origin.y
    linarith

/-- `_cast_single` always produces a result: the DDA loop terminates on
every input. -/
lemma castSingle_isSome (origin dir : Vec) (lm : LevelMap) (maxD : ℚ) :
    (castSingle origin dir lm maxD).isSome = true := by
  have h := ddaLoop_isSome (castEnv origin dir lm maxD)
    (nudge_ne_zero dir.x) (nudge_ne_zero dir.y) rfl rfl
    (ddaFuel (castEnv origin dir lm maxD) (hX0 origin dir) (vY0 origin dir))
    (hX0 origin dir) (vY0 origin dir) 0
    (hDist0_nonneg origin dir lm maxD) (vDist0_nonneg origin dir lm maxD)
    (Nat.lt_succ_self _)
  obtain ⟨r, hr⟩ := Option.isSome_iff_exists.mp h
  unfold castSingle
  rw [hr]
  rfl

/-! ## Helper lemmas: shape of the DDA loop's results -/

/-- The only way the DDA loop reports `wall_type = 0` is the
budget-exhausted exit `(max_distance, 0, False, None)`. -/
lemma ddaLoop_wall0 (e : DDAEnv) :
    ∀ (fuel : ℕ) (h_x v_y : ℤ) (d : ℚ) (r : SingleResult),
      ddaLoop e fuel h_x v_y d = some r → r.wall_type = 0 →
      r = ⟨e.maxD, 0, false, none⟩ := by
  intro fuel
  induction fuel with
  | zero =>
    intro h_x v_y d r h
    simp [ddaLoop] at h
  | succ n ih =>
    intro h_x v_y d r h hw
    rw [ddaLoop] at h
    by_cases hd : d < e.maxD
    · rw [if_pos hd] at h
      by_cases hc : |hDist e h_x| < |vDist e v_y|
      · rw [if_pos hc] at h
        unfold hBranch at h
        split_ifs at h with h1 h2
        · injection h with h
          rw [← h] at hw
          simp at hw
        · injection h with h
          rw [← h] at hw
          exact absurd hw h2
        · exact ih _ _ _ _ h hw
      · rw [if_neg hc] at h
        unfold vBranch at h
        split_ifs at h with h1 h2
        · injection h with h
          rw [← h] at hw
          simp at hw
        · injection h with h
          rw [← h] at hw
          exact absurd hw h2
        · exact ih _ _ _ _ h hw
    · rw [if_neg hd] at h
      injection h with h
      exact h.symm

/-- `_cast_single` with `wall_type = 0` returns exactly the budget, no
mirror; and the returned direction is always the nudged one. -/
lemma castSingle_wall0 (origin dir : Vec) (lm : LevelMap) (maxD : ℚ)
    (r : SingleResult) (nd : Vec)
    (h : castSingle origin dir lm maxD = some (r, nd)) (hw : r.wall_type = 0) :
    r = ⟨maxD, 0, false, none⟩ := by
  unfold castSingle at h
  rw [Option.map_eq_some'] at h
  obtain ⟨a, ha, hf⟩ := h
  have hr : a = r := congrArg Prod.fst hf
  subst hr
  exact ddaLoop_wall0 _ _ _ _ _ _ ha hw

/-- The nudged direction returned by `_cast_single`. -/
lemma castSingle_nd (origin dir : Vec) (lm : LevelMap) (maxD : ℚ)
    (r : SingleResult) (nd : Vec)
    (h : castSingle origin dir lm maxD = some (r, nd)) :
    nd = ⟨nudge dir.x, nudge dir.y⟩ := by
  unfold castSingle at h
  rw [Option.map_eq_some'] at h
  obtain ⟨a, ha, hf⟩ := h
  exact (congrArg Prod.snd hf).symm

/-! ## Helper lemmas: the reflection controller -/

/-- Unfolding equation for one controller iteration. -/
lemma castLoop_succ (lm : LevelMap) (maxD : ℚ) (n : ℕ) (pos dir : Vec)
    (b : ℕ) (total : ℚ) (lw : Option ℤ) :
    castLoop lm maxD (n + 1) pos dir b total lw =
      if b < maxBounces ∧ total < maxD then
        match castSingle pos dir lm (maxD - total) with
        | none => none
        | some (r, nd) =>
          match r.mirror_data with
          | some m =>
            if r.hit_mirror then
              (castLoop lm maxD n
                  ⟨pos.x + nd.x * r.distance, pos.y + nd.y * r.distance⟩
                  (if m.horizontal then ⟨nd.x, -nd.y⟩ else ⟨-nd.x, nd.y⟩)
                  (b + 1) (total + r.distance) (some r.wall_type)).map
                (fun p => (p.1, r :: p.2))
            else some (.ok (total + r.distance) r.wall_type false, [r])
          | none => some (.ok (total + r.distance) r.wall_type false, [r])
      else
        match lw with
        | none => some (.unboundLocal, [])
        | some w => some (.ok total w false, []) := rfl

/-- The controller loop terminates: `maxBounces - bounces + 1` iterations
of fuel always suffice, because every continuing iteration increments the
bounce counter. -/
lemma castLoop_isSome (lm : LevelMap) (maxD : ℚ) :
    ∀ (fuel : ℕ) (pos dir : Vec) (b : ℕ) (total : ℚ) (lw : Option ℤ),
      maxBounces - b < fuel →
      (castLoop lm maxD fuel pos dir b total lw).isSome = true := by
  intro fuel
  induction fuel with
  | zero => exact fun _ _ b _ _ h => absurd h (Nat.not_lt_zero _)
  | succ n ih =>
    intro pos dir b total lw hf
    rw [castLoop_succ]
    by_cases hcond : b < maxBounces ∧ total < maxD
    · rw [if_pos hcond]
      split
      · next heq =>
        exact absurd (castSingle_isSome pos dir lm (maxD - total))
          (by rw [heq]; simp)
      · next r nd heq =>
        split
        · next m hm =>
          split
          · next hb =>
            rw [Option.isSome_map']
            apply ih
            have h3 := hcond.1
            omega
          · next hb => rfl
        · next hm => rfl
    · rw [if_neg hcond]
      cases lw <;> rfl

/-- Structure of every value the controller can return: at most
`maxBounces - bounces` segments are cast; an empty segment list means the
loop body never ran (reproducing the last `wall_type` local, or the
unbound-local failure); otherwise the outcome accumulates every segment
distance and reports the last segment's `wall_type` with mirror flag
`False`. -/
lemma castLoop_spec (lm : LevelMap) (maxD : ℚ) :
    ∀ (fuel : ℕ) (pos dir : Vec) (b : ℕ) (total : ℚ) (lw : Option ℤ)
      (o : CastOutcome) (segs : List SingleResult),
      castLoop lm maxD fuel pos dir b total lw = some (o, segs) →
      segs.length ≤ maxBounces - b ∧
      (segs = [] → (lw = none ∧ o = .unboundLocal) ∨
        (∃ w, lw = some w ∧ o = .ok total w false)) ∧
      (∀ h : segs ≠ [],
        o = .ok (total + (segs.map SingleResult.distance).sum)
              ((segs.getLast h).wall_type) false) := by
  intro fuel
  induction fuel with
  | zero =>
    intro pos dir b total lw o segs h
    simp [castLoop] at h
  | succ n ih =>
    intro pos dir b total lw o segs h
    rw [castLoop_succ] at h
    by_cases hcond : b < maxBounces ∧ total < maxD
    · rw [if_pos hcond] at h
      have hone : ∀ (r : SingleResult),
          some ((CastOutcome.ok (total + r.distance) r.wall_type false), [r]) =
            some (o, segs) →
          segs.length ≤ maxBounces - b ∧
          (segs = [] → (lw = none ∧ o = .unboundLocal) ∨
            (∃ w, lw = some w ∧ o = .ok total w false)) ∧
          (∀ h : segs ≠ [],
            o = .ok (total + (segs.map SingleResult.distance).sum)
                  ((segs.getLast h).wall_type) false) := by
        intro r he
        injection he with he
        rw [Prod.mk.injEq] at he
        obtain ⟨ho, hs⟩ := he
        subst ho
        subst hs
        have h3 := hcond.1
        refine ⟨by simp; omega, fun he => absurd he (by simp), fun _ => by simp⟩
      split at h
      · exact absurd h (by simp)
      · next r nd heq =>
        split at h
        · next m hm =>
          split at h
          · next hb =>
            rw [Option.map_eq_some'] at h
            obtain ⟨⟨o', segs'⟩, hrec, hpair⟩ := h
            rw [Prod.mk.injEq] at hpair
            obtain ⟨ho, hs⟩ := hpair
            subst ho
            subst hs
            obtain ⟨hlen, hnil, hcons⟩ := ih _ _ _ _ _ _ _ hrec
            refine ⟨?_, fun he => absurd he (by simp), ?_⟩
            · have h3 := hcond.1
              simp only [List.length_cons]
              omega
            · intro hne
              by_cases hn : segs' = []
              · subst hn
                rcases hnil rfl with ⟨hlw, _⟩ | ⟨w, hw, ho⟩
                · exact absurd hlw (by simp)
                · injection hw with hw
                  subst hw
                  rw [ho]
                  simp
              · have ho := hcons hn
                rw [ho, List.getLast_cons hn]
                simp only [List.map_cons, List.sum_cons]
                rw [add_assoc]
          · next hb => exact hone r h
        · next hm => exact hone r h
    · rw [if_neg hcond] at h
      cases lw with
      | none =>
        injection h with h
        rw [Prod.mk.injEq] at h
        obtain ⟨ho, hs⟩ := h
        subst ho
        subst hs
        exact ⟨Nat.zero_le _, fun _ => Or.inl ⟨rfl, rfl⟩,
          fun hne => absurd rfl hne⟩
      | some w =>
        injection h with h
        rw [Prod.mk.injEq] at h
        obtain ⟨ho, hs⟩ := h
        subst ho
        subst hs
        exact ⟨Nat.zero_le _, fun _ => Or.inr ⟨w, rfl, rfl⟩,
          fun hne => absurd rfl hne⟩

/-! ## The claims -/

/-- C1: the spec says casting with `maxDistance == 0` returns
`{distance: 0, surfaceType: 0}` immediately and raises no failure.  The
code instead skips the loop (since `total_distance < max_distance` is
`0 < 0`) and then returns the local `wall_type`, which was never
assigned: Python raises `UnboundLocalError`.  This theorem evaluates the
embedding at that failing input: for every grid and every ray, the
result is the unbound-local failure, not `(0, 0)`. -/
theorem claim_C1 (lm : LevelMap) (r : Ray) :
    Ray.cast r lm 0 = some (.unboundLocal, []) := by
  unfold Ray.cast
  rw [castLoop_succ, if_neg (by simp)]

/-- C2, counterexample: in the `lmC2` mirror corridor the cast performs
exactly 3 segments (the instrumented segment list has length 3) and
returns `(17/2, 7)` — the accumulated distance with the third (mirror)
segment's tile code `7`.  No 4th segment is cast: the segment a 4th cast
would produce (computed from the post-third-bounce state) is a mirror hit
of tile `5` at distance `3`, whose data appears nowhere in the result. -/
theorem claim_C2_cex :
    Ray.cast ⟨⟨3/2, 3/2⟩, ⟨1, 0⟩, 0⟩ lmC2 20 =
      some (.ok (17/2) 7 false, segsC2) ∧
    segsC2.length = 3 ∧
    (castSingle ⟨4, 30017/20000⟩ ⟨-1, 1/10000⟩ lmC2 (23/2)).map
        (fun p => (p.1.distance, p.1.wall_type, p.1.hit_mirror)) =
      some (3, 5, true) := by
  refine ⟨?_, ?_, ?_⟩
  · decide
  · decide
  · decide

/-- C2, amended: a cast from a fresh ray performs at most 3 segments (so
after 3 reflections no 4th segment is cast), and whenever at least one
segment was cast the result is the sum of all segment distances together
with the **last** segment's tile code, reported with the mirror flag
false — in a corridor of more than 3 mirrors that last segment is the
third mirror hit itself. -/
theorem claim_C2 (origin dir : Vec) (lm : LevelMap) (maxD : ℚ)
    (o : CastOutcome) (segs : List SingleResult)
    (h : Ray.cast ⟨origin, dir, 0⟩ lm maxD = some (o, segs)) :
    segs.length ≤ maxBounces ∧
    ∀ hne : segs ≠ [],
      o = .ok ((segs.map SingleResult.distance).sum)
            ((segs.getLast hne).wall_type) false := by
  obtain ⟨hlen, _, hcons⟩ := castLoop_spec lm maxD _ _ _ _ _ _ _ _ h
  refine ⟨by simpa using hlen, fun hne => ?_⟩
  simpa using hcons hne

/-- C2, witness: the amended statement at the concrete mirror corridor. -/
theorem claim_C2_witness :
    segsC2.length ≤ maxBounces ∧
    CastOutcome.ok (17/2) 7 false =
      .ok ((segsC2.map SingleResult.distance).sum)
        ((segsC2.getLast (by decide)).wall_type) false := by
  have h := claim_C2 ⟨3/2, 3/2⟩ ⟨1, 0⟩ lmC2 20 (.ok (17/2) 7 false) segsC2
    (by decide)
  exact ⟨h.1, h.2 _⟩

/-- C3, counterexample: the returned distance is **not** always at most
`maxDistance`: with budget `2/5`, a wall at the first crossing beyond the
budget is still processed (the budget is only tested at the top of the
loop against the previous crossing distance), and the caster returns
distance `1/2 > 2/5` with the wall's code `2`. -/
theorem claim_C3_cex :
    castSingle ⟨3/2, 3/2⟩ ⟨1, 0⟩ lmC3 (2/5) =
      some (⟨1/2, 2, false, none⟩, ⟨1, 1/10000⟩) ∧
    (2/5 : ℚ) < 1/2 := by
  constructor
  · decide
  · norm_num

/-- C3, amended: for every origin, direction, grid and nonnegative
budget the single-segment caster completes (returns a value), and every
budget-exhausted result (`surfaceType = 0`) carries exactly
`distance = maxDistance` with no mirror; but a hit found at a crossing
beyond the budget may be returned with `distance > maxDistance`. -/
theorem claim_C3 (origin dir : Vec) (lm : LevelMap) (maxD : ℚ)
    (_hmd : 0 ≤ maxD) :
    ∃ (r : SingleResult) (nd : Vec),
      castSingle origin dir lm maxD = some (r, nd) ∧
      (r.wall_type = 0 →
        r.distance = maxD ∧ r.hit_mirror = false ∧ r.mirror_data = none) := by
  obtain ⟨⟨r, nd⟩, hr⟩ :=
    Option.isSome_iff_exists.mp (castSingle_isSome origin dir lm maxD)
  refine ⟨r, nd, hr, fun hw => ?_⟩
  have hzero := castSingle_wall0 origin dir lm maxD r nd hr hw
  subst hzero
  exact ⟨rfl, rfl, rfl⟩

/-- C3, witness: the amended statement at a concrete budget-exhausting
cast. -/
theorem claim_C3_witness :
    (castSingle ⟨3/2, 3/2⟩ ⟨1, 0⟩ lmC3w (1/2)).isSome = true := by
  obtain ⟨r, nd, hr, _⟩ := claim_C3 ⟨3/2, 3/2⟩ ⟨1, 0⟩ lmC3w (1/2) (by norm_num)
  rw [hr]
  rfl

/-- C4, counterexample: the nudge is **not** sign-preserving: the
negative near-zero component `-1/20000` is replaced by the positive
constant `1/10000`, and the single-segment caster indeed continues with
the positive nudged component. -/
theorem claim_C4_cex :
    nudge (-(1/20000)) = 1/10000 ∧ (0 : ℚ) < nudge (-(1/20000)) ∧
    (castSingle ⟨3/2, 3/2⟩ ⟨-(1/20000), 1⟩ lmC4 5).map (fun p => p.2.x) =
      some (1/10000) := by
  refine ⟨?_, ?_, ?_⟩ <;> decide

/-- C4, amended: a direction component whose magnitude is below `1e-4`
is replaced by the positive constant `1e-4` regardless of its sign (a
negative near-zero component becomes positive), components at or above
the epsilon are left unchanged, the nudged value is never zero (so no
division by zero occurs), and the single-segment caster continues with
exactly the componentwise-nudged direction. -/
theorem claim_C4 :
    (∀ q : ℚ, (|q| < 1/10000 → nudge q = 1/10000) ∧
      (1/10000 ≤ |q| → nudge q = q) ∧ nudge q ≠ 0) ∧
    (∀ (origin dir : Vec) (lm : LevelMap) (maxD : ℚ)
       (r : SingleResult) (nd : Vec),
      castSingle origin dir lm maxD = some (r, nd) →
      nd = ⟨nudge dir.x, nudge dir.y⟩) := by
  constructor
  · intro q
    exact ⟨fun h => by rw [nudge, if_pos h],
           fun h => by rw [nudge, if_neg (not_lt.mpr h)],
           nudge_ne_zero q⟩
  · exact fun origin dir lm maxD r nd h => castSingle_nd origin dir lm maxD r nd h

/-- C4, witness: the amended statement at concrete components and a
concrete cast. -/
theorem claim_C4_witness :
    nudge (1/20000) = 1/10000 ∧ nudge (2/10000) = 2/10000 ∧
    (⟨1, 1/10000⟩ : Vec) = ⟨nudge 1, nudge (-(1/20000))⟩ := by
  refine ⟨(claim_C4.1 (1/20000)).1 (by decide),
          (claim_C4.1 (2/10000)).2.1 (by decide),
          claim_C4.2 ⟨3/2, 3/2⟩ ⟨1, -(1/20000)⟩ lmC4 5
            ⟨1/2, 1, false, none⟩ ⟨1, 1/10000⟩ (by decide)⟩

/-- C5: when a segment hits a registered mirror with bounce budget
(`bounces < maxBounces`) and distance budget (`total < maxDistance`)
remaining, the controller advances the origin to
`origin + direction * segment.distance` and negates exactly the `y`
component for a horizontal mirror and exactly the `x` component for a
vertical one (`direction` being the controller's current direction,
i.e. the nudged vector the segment was cast with, since the source
nudges it in place); and the final reported distance of a fresh cast is
the sum of all segment distances. -/
theorem claim_C5 :
    (∀ (lm : LevelMap) (maxD : ℚ) (n : ℕ) (pos dir : Vec) (b : ℕ)
       (total : ℚ) (lw : Option ℤ) (r : SingleResult) (nd : Vec) (m : Mirror),
       b < maxBounces → total < maxD →
       castSingle pos dir lm (maxD - total) = some (r, nd) →
       r.hit_mirror = true → r.mirror_data = some m →
       castLoop lm maxD (n + 1) pos dir b total lw =
         (castLoop lm maxD n
             ⟨pos.x + nd.x * r.distance, pos.y + nd.y * r.distance⟩
             (if m.horizontal then ⟨nd.x, -nd.y⟩ else ⟨-nd.x, nd.y⟩)
             (b + 1) (total + r.distance) (some r.wall_type)).map
           (fun p => (p.1, r :: p.2))) ∧
    (∀ (origin dir : Vec) (lm : LevelMap) (maxD : ℚ) (o : CastOutcome)
       (segs : List SingleResult),
       Ray.cast ⟨origin, dir, 0⟩ lm maxD = some (o, segs) →
       ∀ hne : segs ≠ [],
         o = .ok ((segs.map SingleResult.distance).sum)
               ((segs.getLast hne).wall_type) false) := by
  constructor
  · intro lm maxD n pos dir b total lw r nd m hb hd hcs hm hmd
    obtain ⟨rdist, rwall, rhit, rmir⟩ := r
    dsimp only at hm hmd
    subst hm
    subst hmd
    rw [castLoop_succ, if_pos ⟨hb, hd⟩, hcs]
    rfl
  · intro origin dir lm maxD o segs h hne
    simpa using (castLoop_spec lm maxD _ _ _ _ _ _ _ _ h).2.2 hne

/-- C5, witness: one concrete reflection step off the horizontal mirror
of `lmC5` (the `y` component of the nudged direction `(1, 1/10000)` is
negated, `x` unchanged; the origin advances by `direction * 3/2`), and
the sum-of-distances clause at the completed concrete cast. -/
theorem claim_C5_witness :
    (castLoop lmC5 10 2 ⟨3/2, 3/2⟩ ⟨1, 0⟩ 0 0 none =
      (castLoop lmC5 10 1 ⟨3, 30003/20000⟩ ⟨1, -(1/10000)⟩ 1 (3/2)
          (some 3)).map
        (fun p => (p.1, (⟨3/2, 3, true, some ⟨3, 1, true⟩⟩ : SingleResult) :: p.2))) ∧
    CastOutcome.ok (5/2) 1 false =
      .ok ((([⟨3/2, 3, true, some ⟨3, 1, true⟩⟩, ⟨1, 1, false, none⟩] :
              List SingleResult).map SingleResult.distance).sum)
        ((([⟨3/2, 3, true, some ⟨3, 1, true⟩⟩, ⟨1, 1, false, none⟩] :
              List SingleResult).getLast (by decide)).wall_type)
        false := by
  constructor
  · exact claim_C5.1 lmC5 10 1 ⟨3/2, 3/2⟩ ⟨1, 0⟩ 0 0 none
        ⟨3/2, 3, true, some ⟨3, 1, true⟩⟩ ⟨1, 1/10000⟩ ⟨3, 1, true⟩
        (by decide) (by norm_num) (by decide) rfl rfl
  · exact claim_C5.2 ⟨3/2, 3/2⟩ ⟨1, 0⟩ lmC5 10 (.ok (5/2) 1 false)
      [⟨3/2, 3, true, some ⟨3, 1, true⟩⟩, ⟨1, 1, false, none⟩]
      (by decide) _

/-- C6: every invocation of `Ray.cast` terminates (the fuel chosen in
the embedding — one controller iteration per available bounce plus one,
and `ddaMeasure` DDA iterations per segment — always produces a value),
and so does every `_cast_single` invocation on its own. -/
theorem claim_C6 :
    (∀ (r : Ray) (lm : LevelMap) (maxD : ℚ),
      (Ray.cast r lm maxD).isSome = true) ∧
    (∀ (origin dir : Vec) (lm : LevelMap) (maxD : ℚ),
      (castSingle origin dir lm maxD).isSome = true) := by
  refine ⟨fun r lm maxD => ?_, castSingle_isSome⟩
  unfold Ray.cast
  apply castLoop_isSome
  omega

/-- C7: on a rectangular grid (all rows of length `width`), `get_tile`
returns exactly the stored cell entry for in-bounds `(x, y)` and the
sentinel wall code `1` whenever any bound is violated. -/
theorem claim_C7 (lm : LevelMap) (x y : ℤ)
    (hwf : ∀ row ∈ lm.grid, row.length = lm.width) :
    ((0 ≤ x ∧ x < (lm.width : ℤ) ∧ 0 ≤ y ∧ y < (lm.height : ℤ)) →
      (lm.grid[y.toNat]?.bind fun row => row[x.toNat]?) =
        some (lm.get_tile x y)) ∧
    ((x < 0 ∨ (lm.width : ℤ) ≤ x ∨ y < 0 ∨ (lm.height : ℤ) ≤ y) →
      lm.get_tile x y = 1) := by
  constructor
  · rintro ⟨hx0, hxw, hy0, hyh⟩
    have hhe : lm.height = lm.grid.length := rfl
    have hyn : y.toNat < lm.grid.length := by omega
    have hrl : lm.grid[y.toNat].length = lm.width :=
      hwf _ (List.getElem_mem hyn)
    have hxn : x.toNat < lm.grid[y.toNat].length := by omega
    have h1 : lm.grid.getD y.toNat [] = lm.grid[y.toNat] := by
      rw [List.getD_eq_getElem?_getD, List.getElem?_eq_getElem hyn,
          Option.getD_some]
    have h2 : (lm.grid[y.toNat]).getD x.toNat 0 = lm.grid[y.toNat][x.toNat] := by
      rw [List.getD_eq_getElem?_getD, List.getElem?_eq_getElem hxn,
          Option.getD_some]
    rw [List.getElem?_eq_getElem hyn, Option.some_bind,
        List.getElem?_eq_getElem hxn,
        LevelMap.get_tile, if_pos ⟨hx0, hxw, hy0, hyh⟩, tileOf, h1, h2]
  · intro h
    rw [LevelMap.get_tile, if_neg (by omega)]

/-- C7, witness: the in-bounds and out-of-bounds clauses at concrete
coordinates of `lmC7`. -/
theorem claim_C7_witness :
    (lmC7.grid[(0 : ℤ).toNat]?.bind fun row => row[(1 : ℤ).toNat]?) =
      some (lmC7.get_tile 1 0) ∧
    lmC7.get_tile (-1) 5 = 1 := by
  exact ⟨(claim_C7 lmC7 1 0 (by decide)).1 (by decide),
         (claim_C7 lmC7 (-1) 5 (by decide)).2 (by decide)⟩

/-- C8: `normalize` of the zero vector is exactly the zero vector (no
division by zero is attempted: the `length > 0` guard fails), and for a
vector of nonzero length it divides each component by the Euclidean
length. -/
theorem claim_C8 :
    Vector2.normalize ⟨0, 0⟩ = ⟨0, 0⟩ ∧
    ∀ v : Vector2, v.length ≠ 0 →
      Vector2.normalize v = ⟨v.x / v.length, v.y / v.length⟩ := by
  constructor
  · have hl : (⟨0, 0⟩ : Vector2).length = 0 := by
      rw [Vector2.length]
      norm_num
    rw [Vector2.normalize, hl]
    norm_num
  · intro v hv
    rw [Vector2.normalize,
        if_pos (lt_of_le_of_ne (by rw [Vector2.length]; positivity) (Ne.symm hv))]

/-- C8, witness: `normalize (3, 4) = (3/5, 4/5)`. -/
theorem claim_C8_witness :
    Vector2.normalize ⟨3, 4⟩ = ⟨3 / 5, 4 / 5⟩ := by
  have hl : (⟨3, 4⟩ : Vector2).length = 5 := by
    rw [Vector2.length]
    rw [show ((3 : ℝ) ^ 2 + (4 : ℝ) ^ 2 : ℝ) = 5 ^ 2 by norm_num]
    exact Real.sqrt_sq (by norm_num)
  have h := claim_C8.2 ⟨3, 4⟩ (by rw [hl]; norm_num)
  rw [h, hl]

/-- C9: when the horizontal and vertical crossing distances tie exactly,
the strict comparison `abs(h_dist) < abs(v_dist)` fails and the loop
processes the vertical-intersection branch (`vBranch`, the branch whose
entered cell is computed from `v_x`, `v_y`). -/
theorem claim_C9 (e : DDAEnv) (n : ℕ) (h_x v_y : ℤ) (d : ℚ)
    (hd : d < e.maxD) (htie : |hDist e h_x| = |vDist e v_y|) :
    ddaLoop e (n + 1) h_x v_y d = vBranch e h_x v_y (ddaLoop e n) := by
  rw [ddaLoop, if_pos hd, if_neg (by rw [htie]; exact lt_irrefl _)]

/-- C9, witness: the tie-break at the exact corner state of `envC9`. -/
theorem claim_C9_witness :
    ddaLoop envC9 1 1 1 0 = vBranch envC9 1 1 (ddaLoop envC9 0) :=
  claim_C9 envC9 0 1 1 0 (by decide)
    (by decide)

/-- C10: a cast from a freshly constructed ray (`bounces = 0`) performs
at most 3 single-segment casts, and once the bounce counter has reached
`maxBounces = 3` no segment is cast at all (the loop condition is tested
before each segment). -/
theorem claim_C10 :
    (∀ (origin dir : Vec) (lm : LevelMap) (maxD : ℚ) (o : CastOutcome)
       (segs : List SingleResult),
       Ray.cast ⟨origin, dir, 0⟩ lm maxD = some (o, segs) →
       segs.length ≤ maxBounces) ∧
    (∀ (r : Ray) (lm : LevelMap) (maxD : ℚ) (o : CastOutcome)
       (segs : List SingleResult), maxBounces ≤ r.bounces →
       Ray.cast r lm maxD = some (o, segs) → segs = []) := by
  constructor
  · intro origin dir lm maxD o segs h
    simpa using (castLoop_spec lm maxD _ _ _ _ _ _ _ _ h).1
  · intro r lm maxD o segs hb h
    have hlen := (castLoop_spec lm maxD _ _ _ _ _ _ _ _ h).1
    have h0 : segs.length = 0 := by omega
    exact List.length_eq_zero.mp h0

/-- C10, witness: at most 3 segments on a concrete fresh cast, and no
segment at all for a ray whose counter already reached 3. -/
theorem claim_C10_witness :
    ([(⟨1/2, 1, false, none⟩ : SingleResult)] : List SingleResult).length ≤
      maxBounces ∧
    ([] : List SingleResult) = [] := by
  exact ⟨claim_C10.1 ⟨1/2, 1/2⟩ ⟨1, 0⟩ lmC10 5 (.ok (1/2) 1 false)
           [⟨1/2, 1, false, none⟩] (by decide),
         claim_C10.2 ⟨⟨1/2, 1/2⟩, ⟨1, 0⟩, 3⟩ lmC10 5 .unboundLocal []
           (by decide) (by decide)⟩

end RaycastPuzzle

